import Mathlib

set_option maxRecDepth 8000

/-!
Verification of the fund-assistant core (src/app.py): the risk scorer
(volatility + maximum drawdown), the retrying fetcher, the fund-directory
parser, the directory cache manager with local fallback, and the
soft-failing valuation / NAV feeds.

Conventions of the embedding:
* Python floats are modelled exactly: intermediate arithmetic over ℚ, and
  the square root (statistics.pstdev) over ℝ.
* Fallible code is modelled with Option / Except; Python exceptions that a
  function raises become the .error case of an Except result.
* The network, the JSON decoder of the valuation feed and the pandas
  read_html table extractor are external effects; they enter as explicit
  arguments (an Except value, or a function producing one).
-/

/-! ## Risk scorer (src/app.py, risk, lines 178-213) -/

/-- Simple returns of a NAV series: for each consecutive pair the source
computes cur/prev - 1 and skips the step when the previous value is <= 0
(lines 182-188).  The series is the list of unit-NAV values; the source
iterates (date, value) pairs and reads only the value component. -/
def retsOf (nav : List ℚ) : List ℚ :=
  (nav.zip nav.tail).filterMap (fun p => if p.1 ≤ 0 then none else some (p.2 / p.1 - 1))

/-- Population variance, the square of statistics.pstdev: mean of squared
deviations from the mean, dividing by n (not n - 1). -/
def pvariance (xs : List ℚ) : ℚ :=
  ((xs.map (fun x => (x - xs.sum / (xs.length : ℚ)) ^ 2)).sum) / (xs.length : ℚ)

/-- One step of the drawdown loop (lines 196-200): raise the running peak,
then record (peak - v)/peak when the peak is positive.  State is
(peak, dd); max(dd, cand) is written as the comparison Python evaluates. -/
def ddStep (s : ℚ × ℚ) (v : ℚ) : ℚ × ℚ :=
  let peak := if s.1 < v then v else s.1
  let dd :=
    if 0 < peak then (if s.2 < (peak - v) / peak then (peak - v) / peak else s.2) else s.2
  (peak, dd)

/-- Maximum drawdown (lines 194-200): peak starts at nav[0], the loop runs
over the whole series. -/
def maxDD (nav : List ℚ) : ℚ :=
  (nav.foldl ddStep (nav.headI, 0)).2

/-- Python int() applied to a float: truncation toward zero. -/
noncomputable def pyInt (x : ℝ) : ℤ :=
  if 0 ≤ x then ⌊x⌋ else -⌊-x⌋

/-- Volatility of the main branch: statistics.pstdev of the returns
(line 193), i.e. the real square root of the population variance. -/
noncomputable def riskVol (nav : List ℚ) : ℝ :=
  Real.sqrt ((pvariance (retsOf nav) : ℚ) : ℝ)

/-- The raw score expression of line 203: vol * 4000 + dd * 200. -/
noncomputable def riskScoreRaw (nav : List ℚ) : ℝ :=
  riskVol nav * 4000 + ((maxDD nav : ℚ) : ℝ) * 200

/-- Lines 203-204: score = int(raw) clamped into [0, 100]. -/
noncomputable def riskScore (nav : List ℚ) : ℤ :=
  max 0 (min 100 (pyInt (riskScoreRaw nav)))

/-- Lines 206-211: the action string chosen from the score. -/
noncomputable def riskAction (nav : List ℚ) : String :=
  if 70 < riskScore nav then "减仓" else if riskScore nav < 35 then "加仓" else "观望"

/-- Result of risk(): the (score, action, vol, dd) tuple of line 213. -/
structure RiskOut where
  score : ℤ
  action : String
  vol : ℝ
  dd : ℚ

/-- risk(nav) (lines 178-213): the two insufficient-data guards return the
neutral tuple; otherwise score, action, volatility and drawdown are
computed from the returns. -/
noncomputable def risk (nav : List ℚ) : RiskOut :=
  if nav.length < 30 then ⟨50, "观望（数据不足）", 0, 0⟩
  else if (retsOf nav).length < 10 then ⟨50, "观望（样本不足）", 0, 0⟩
  else ⟨riskScore nav, riskAction nav, riskVol nav, maxDD nav⟩

/-- The action enum of the specification.  reduce = 减仓, add = 加仓,
hold = 观望; the two guard strings are 观望 annotated with the reason and
denote hold as well. -/
inductive ActionK where
  | reduce
  | hold
  | add
  | other
deriving DecidableEq

/-- Classify the action strings the source can produce into the action
enum of the specification. -/
def actionKind (s : String) : ActionK :=
  if s = "减仓" then .reduce
  else if s = "加仓" then .add
  else if s = "观望" ∨ s = "观望（数据不足）" ∨ s = "观望（样本不足）" then .hold
  else .other

/-- The returns as real numbers. -/
noncomputable def castList (xs : List ℚ) : List ℝ :=
  xs.map Rat.cast

/-- Modelled from the spec: the population standard deviation of a list of
returns, written directly over ℝ in the words of the specification: the
square root of the mean of squared deviations from the mean, dividing by
n (not n - 1); compared below with the volatility the code computes. -/
noncomputable def specPstdev (xs : List ℚ) : ℝ :=
  Real.sqrt
    ((((castList xs).map
        (fun r => (r - (castList xs).sum / ((castList xs).length : ℝ)) ^ 2)).sum) /
      ((castList xs).length : ℝ))

/-- Modelled from the spec: the score formula as the claim words it,
clamp(round(volatility*4000 + max_drawdown*200), 0, 100), with rounding to
the nearest integer; compared below with the truncation the code applies. -/
noncomputable def specScoreRound (nav : List ℚ) : ℤ :=
  max 0 (min 100 (round (specPstdev (retsOf nav) * 4000 + ((maxDD nav : ℚ) : ℝ) * 200)))

/-- A geometric NAV series of 31 points with common ratio 124/125: every
return equals -1/125, so the population variance is exactly 0 and the
score reduces to the drawdown term, whose exact value separates floor
from round. -/
def navC1 : List ℚ := (List.range 31).map (fun i => 100 * (124 / 125 : ℚ) ^ i)

/-- A 30-point series starting 100, 50 and then flat at 100: passes both
guards and realizes the 0.5 peak-to-trough drawdown of the short series
[100, 50, 100]. -/
def navC3p : List ℚ := [100, 50] ++ List.replicate 28 100

/-- A constant 31-point series: passes both guards with all returns 0. -/
def navConst31 : List ℚ := List.replicate 31 100

/-- A 30-point series of non-positive values: every return step is skipped,
so the sample-size guard fires. -/
def navNeg30 : List ℚ := List.replicate 30 (-1)

/-- A strictly increasing positive series of 31 points. -/
def navInc31 : List ℚ :=
  [1, 2, 3, 4, 5, 6, 7, 8, 9, 10, 11, 12, 13, 14, 15, 16, 17, 18, 19, 20, 21,
   22, 23, 24, 25, 26, 27, 28, 29, 30, 31]

/-! ## Resilient fetcher (src/app.py, safe_get called there _safe_get, lines 40-55) -/

/-- Observable trace of one _safe_get call: the final result, the number of
attempts performed, and the backoff sleeps in order (seconds, exact). -/
structure FetchTrace where
  result : Except String String
  attempts : Nat
  sleeps : List ℚ

/-- The retry loop of _safe_get.  transport k is the outcome of attempt k
(0-based); a non-2xx status and a transport error both surface as the
.error case, exactly the exceptions the loop catches.  k is the current
attempt index, the second argument the remaining iterations, the third the
last error seen.  Before attempt k with k > 0 the loop sleeps 0.8 * k. -/
def safe_get_go (transport : Nat → Except String String) :
    Nat → Nat → Option String → FetchTrace
  | _, 0, lastErr => ⟨.error (lastErr.getD ("TypeError: raise of None")), 0, []⟩
  | k, r + 1, _ =>
    let pre : List ℚ := if 0 < k then [(4 / 5 : ℚ) * k] else []
    match transport k with
    | .ok body => ⟨.ok body, 1, pre⟩
    | .error e =>
      let rest := safe_get_go transport (k + 1) r (some e)
      ⟨rest.result, rest.attempts + 1, pre ++ rest.sleeps⟩

/-- _safe_get(url, timeout, retries): run the loop from attempt 0 with no
last error. -/
def safe_get (transport : Nat → Except String String) (retries : Nat) : FetchTrace :=
  safe_get_go transport 0 retries none

/-- The error carried by a failed transport attempt, if any. -/
def errOf (r : Except String String) : Option String :=
  match r with
  | .error e => some e
  | .ok _ => none

/-- An always-failing transport whose attempt k fails with a message
naming k. -/
def tr3 : Nat → Except String String := fun k => .error ("boom " ++ Nat.repr k)

/-! ## Python-literal / JSON values -/

/-- The literal data values the app passes around: the fund-directory rows
(nested lists of strings and numbers) and the JSON snapshot object.
Numbers keep the int / float distinction of the source. -/
inductive PVal where
  | str (s : String)
  | int (n : ℤ)
  | num (q : ℚ)
  | list (xs : List PVal)
  | dict (fields : List (String × PVal))

/-! ## Directory parser (src/app.py, parse_fund_list called there _parse_fund_list, lines 67-82)

The source matches the raw payload against the regular expression
var\s+r\s*=\s*(\[\[.*?\]\]); with DOTALL, then runs ast.literal_eval on
the first group.  Both are modelled character by character below: the
search scans for the leftmost position where the whole pattern matches,
and the lazy body takes the fewest characters such that ]]; follows. -/

/-- The characters \s matches (ASCII). -/
def wsChar (c : Char) : Bool :=
  c = ' ' ∨ c = '\t' ∨ c = '\n' ∨ c = '\r' ∨ c = '\x0b' ∨ c = '\x0c'

/-- Drop leading whitespace: \s* . -/
def skipWs : List Char → List Char
  | [] => []
  | c :: rest => if wsChar c then skipWs rest else c :: rest

/-- Require at least one whitespace character, then drop the run: \s+ . -/
def ws1 : List Char → Option (List Char)
  | [] => none
  | c :: rest => if wsChar c then some (skipWs rest) else none

/-- Does the text begin with the closing delimiter ]]; of the lazy group? -/
def startsStop : List Char → Bool
  | c1 :: c2 :: c3 :: _ => c1 = ']' && c2 = ']' && c3 = ';'
  | _ => false

/-- Lazy body of \[\[.*?\]\]; : the shortest prefix after which ]];
follows.  none when no such delimiter occurs. -/
def findEnd : List Char → Option (List Char)
  | [] => none
  | c :: rest =>
    if startsStop (c :: rest) then some []
    else (findEnd rest).map (fun b => c :: b)

/-- Consume one expected character. -/
def expectChar (c : Char) : List Char → Option (List Char)
  | [] => none
  | d :: rest => if d = c then some rest else none

/-- Try the full pattern var\s+r\s*=\s*(\[\[.*?\]\]); anchored at the
current position; on success return the text of the first group. -/
def matchAt (cs : List Char) : Option (List Char) :=
  (expectChar 'v' cs).bind fun s1 =>
  (expectChar 'a' s1).bind fun s2 =>
  (expectChar 'r' s2).bind fun s3 =>
  (ws1 s3).bind fun s4 =>
  (expectChar 'r' s4).bind fun s5 =>
  (expectChar '=' (skipWs s5)).bind fun s6 =>
  (expectChar '[' (skipWs s6)).bind fun s7 =>
  (expectChar '[' s7).bind fun s8 =>
  (findEnd s8).map fun body => '[' :: '[' :: body ++ [']', ']']

/-- re.search: try the pattern at every position left to right. -/
def reSearchVarR : List Char → Option (List Char)
  | [] => none
  | c :: rest =>
    match matchAt (c :: rest) with
    | some g => some g
    | none => reSearchVarR rest

/-- Scan a double-quoted string body up to the closing quote.  Backslash
escapes and raw newlines are outside the modelled literal subset and make
the scan fail, as ast.literal_eval rejects raw newlines. -/
def scanStr : List Char → Option (List Char × List Char)
  | [] => none
  | c :: rest =>
    if c = '"' then some ([], rest)
    else if c = '\\' ∨ c = '\n' ∨ c = '\r' then none
    else (scanStr rest).map (fun p => (c :: p.1, p.2))

/-- Longest leading run of decimal digits. -/
def scanDigits : List Char → List Char × List Char
  | [] => ([], [])
  | c :: rest =>
    if c.isDigit then
      let p := scanDigits rest
      (c :: p.1, p.2)
    else ([], c :: rest)

/-- Decimal value of a digit run. -/
def digitsToNat (l : List Char) : Nat :=
  l.foldl (fun a c => 10 * a + (c.toNat - 48)) 0

/-- Scan an optionally negated integer literal. -/
def scanInt : List Char → Option (ℤ × List Char)
  | '-' :: rest =>
    match scanDigits rest with
    | ([], _) => none
    | (ds, rest2) => some (-(digitsToNat ds : ℤ), rest2)
  | cs =>
    match scanDigits cs with
    | ([], _) => none
    | (ds, rest2) => some ((digitsToNat ds : ℤ), rest2)

mutual

/-- Parse one literal value: a list, a double-quoted string or an integer.
This is the literal subset of ast.literal_eval the fund-list payloads
exercise.  The fuel argument only bounds the recursion; literalEval below
supplies enough for any input it is given. -/
def parseVal : Nat → List Char → Option (PVal × List Char)
  | 0, _ => none
  | f + 1, cs =>
    match skipWs cs with
    | [] => none
    | c :: rest =>
      if c = '[' then
        match parseItems f rest with
        | some p => some (.list p.1, p.2)
        | none => none
      else if c = '"' then
        match scanStr rest with
        | some p => some (.str (String.mk p.1), p.2)
        | none => none
      else
        match scanInt (c :: rest) with
        | some p => some (.int p.1, p.2)
        | none => none

/-- Parse the elements after an opening bracket, including the closing
bracket; trailing commas are allowed as in Python. -/
def parseItems : Nat → List Char → Option (List PVal × List Char)
  | 0, _ => none
  | f + 1, cs =>
    match skipWs cs with
    | [] => none
    | c :: rest =>
      if c = ']' then some ([], rest)
      else
        match parseVal f (c :: rest) with
        | none => none
        | some p =>
          match skipWs p.2 with
          | [] => none
          | d :: rest2 =>
            if d = ',' then
              match parseItems f rest2 with
              | some q => some (p.1 :: q.1, q.2)
              | none => none
            else if d = ']' then some ([p.1], rest2)
            else none

end

/-- ast.literal_eval on the matched group: parse one value and require the
whole text consumed.  The fuel 2*length+2 dominates the recursion depth of
any successful parse. -/
def literalEval (s : String) : Option PVal :=
  match parseVal (2 * s.length + 2) (skipWs s.data) with
  | some (v, rest) => if skipWs rest = [] then some v else none
  | none => none

/-- _parse_fund_list (lines 67-82): regex-extract the array literal,
evaluate it, and reject anything that is not a list of at least 1000
rows. -/
def parse_fund_list (js_text : String) : Except String (List PVal) :=
  match reSearchVarR js_text.data with
  | none => .error ("没有匹配到基金列表 var r = [[...]]（可能被拦截或页面改版）")
  | some g =>
    match literalEval (String.mk g) with
    | none => .error ("基金列表 literal_eval 解析失败")
    | some data =>
      match data with
      | .list l =>
        if l.length < 1000 then .error ("基金列表数据量异常偏小（可能返回了错误页/被拦截）")
        else .ok l
      | _ => .error ("基金列表数据量异常偏小（可能返回了错误页/被拦截）")

/-! ## Rendered payloads

To state that a well-formed upstream payload parses back to exactly its
records, fund rows are rendered the way the live endpoint prints them:
var r = [["...","..."],...]; with double-quoted fields. -/

/-- Render one string field with double quotes. -/
def renderStrC (s : String) : List Char :=
  '"' :: s.data ++ ['"']

/-- Comma-join rendered pieces. -/
def joinComma : List (List Char) → List Char
  | [] => []
  | [x] => x
  | x :: y :: rest => x ++ ',' :: joinComma (y :: rest)

/-- Render one fund row. -/
def renderRecC (r : List String) : List Char :=
  '[' :: joinComma (r.map renderStrC) ++ [']']

/-- Render the full array literal. -/
def renderListC (rs : List (List String)) : List Char :=
  '[' :: joinComma (rs.map renderRecC) ++ [']']

/-- The characters of a rendered payload: var r = <array>; . -/
def payloadChars (rs : List (List String)) : List Char :=
  'v' :: 'a' :: 'r' :: ' ' :: 'r' :: ' ' :: '=' :: ' ' :: (renderListC rs ++ [';'])

/-- The rendered payload as a string. -/
def payloadStr (rs : List (List String)) : String :=
  String.mk (payloadChars rs)

/-- A field character that disturbs neither the regex extraction nor the
string literal: no quote, no backslash, no semicolon, no raw newline. -/
def safeChar (c : Char) : Bool :=
  ¬ (c = '"' ∨ c = '\\' ∨ c = ';' ∨ c = '\n' ∨ c = '\r')

/-- All fields of all rows safe. -/
def allSafe (rs : List (List String)) : Bool :=
  rs.all (fun r => r.all (fun s => s.data.all safeChar))

/-- A fund row as the parser returns it. -/
def encodeRec (r : List String) : PVal :=
  .list (r.map PVal.str)

/-- A list of fund rows as the parser returns them. -/
def encodeRecs (rs : List (List String)) : List PVal :=
  rs.map encodeRec

/-- 1000 identical well-formed fund rows. -/
def R1000 : List (List String) :=
  List.replicate 1000 ["000001", "HXCZHH", "华夏成长混合", "混合型-灵活"]

/-- 1001 cached rows, above the strict cache threshold. -/
def cachedD : List PVal :=
  List.replicate 1001 (PVal.list [PVal.str ("000001"), PVal.str ("cached")])

/-! ## Directory cache manager (src/app.py, load_funds_hardened, lines 85-108)

The cache file is modelled by its parsed content: none when the file does
not exist, some (.error e) when it exists but json.loads fails, and
some (.ok v) when it holds the JSON value v.  json.dumps/json.loads round
apart, writing a value stores exactly that value. -/

/-- State of the local cache file funds_cache.json. -/
structure FileState where
  cacheFile : Option (Except String PVal)

/-- The JSON object the source writes on a successful online load:
{"ts": now, "data": data} (line 95). -/
def snapshot (now : String) (data : List PVal) : PVal :=
  .dict [("ts", .str now), ("data", .list data)]

/-- Python dict.get(key, default); on a non-dict value the attribute
access raises, which the fallback branch catches. -/
def pyDictGet (v : PVal) (key : String) (default : PVal) : Except String PVal :=
  match v with
  | .dict fields =>
    match (fields.filter (fun p => p.1 = key)).getLast? with
    | some p => .ok p.2
    | none => .ok default
  | _ => .error ("AttributeError: no attribute get")

/-- The online part of load_funds_hardened: fetch the list page, then parse
it.  The fetched argument is the outcome of _safe_get (lines 92-93). -/
def fetchParse (fetched : Except String String) : Except String (List PVal) :=
  match fetched with
  | .ok t => parse_fund_list t
  | .error e => .error e

/-- The provenance tag of the fallback branch (line 104). -/
def cacheTag (e : String) : String :=
  "cache（在线失败：" ++ e ++ "）"

/-- The message of the final RuntimeError (line 108). -/
def fatalMsg (e : String) : String :=
  "基金列表加载失败（在线失败且无可用缓存）：" ++ e

/-- load_funds_hardened (lines 85-108): online first, refreshing the local
snapshot on success; on failure read the cache file and accept it only
when its data entry is a list with strictly more than 1000 rows; otherwise
fail with the RuntimeError that embeds the online error.  The result pairs
the Python return or raise with the cache-file state after the call. -/
def load_funds_hardened (fetched : Except String String) (now : String) (fs : FileState) :
    Except String (List PVal × String) × FileState :=
  match fetchParse fetched with
  | .ok data => (.ok (data, "online"), ⟨some (.ok (snapshot now data))⟩)
  | .error e =>
    match fs.cacheFile with
    | some (.ok cached) =>
      match pyDictGet cached ("data") (.list []) with
      | .ok (.list data) =>
        if 1000 < data.length then (.ok (data, cacheTag e), fs)
        else (.error (fatalMsg e), fs)
      | _ => (.error (fatalMsg e), fs)
    | _ => (.error (fatalMsg e), fs)

/-- The condition under which the fallback branch returns cached data
(lines 99-104): the file exists, parses, its data entry is a list, and it
has strictly more than 1000 rows. -/
def usableCache (fs : FileState) : Option (List PVal) :=
  match fs.cacheFile with
  | some (.ok cached) =>
    match pyDictGet cached ("data") (.list []) with
    | .ok (.list data) => if 1000 < data.length then some data else none
    | _ => none
  | _ => none

/-- A file state with a usable snapshot of 1001 rows. -/
def fsA : FileState :=
  ⟨some (.ok (.dict [("ts", .str ("2026-01-01")), ("data", .list cachedD)]))⟩

/-- A file state with no cache file. -/
def fsB : FileState := ⟨none⟩

/-! ## Valuation feed (src/app.py, get_gz, lines 112-130) -/

/-- Python str.strip combined with str.isdigit on the result: the digit
check guarding both per-fund feeds (lines 118-120, 164-166). -/
def pyStripDigit (code : String) : Bool :=
  !code.trim.data.isEmpty && code.trim.data.all Char.isDigit

/-- Longest split of the input as body ++ close-brace ++ close-paren ++
rest: the greedy .* of the valuation regex \((\{.*\})\) with DOTALL. -/
def lastCloseSplit : List Char → Option (List Char)
  | [] => none
  | c :: rest =>
    match lastCloseSplit rest with
    | some b => some (c :: b)
    | none => if c = '}' ∧ rest.head? = some ')' then some [] else none

/-- re.search of \((\{.*\})\): leftmost opening position, greedy body; the
group is the braced object text. -/
def findCallback : List Char → Option (List Char)
  | [] => none
  | '(' :: '{' :: rest =>
    (match lastCloseSplit rest with
     | some body => some ('{' :: body ++ ['}'])
     | none => findCallback ('{' :: rest))
  | _ :: rest => findCallback rest

/-- get_gz (lines 112-130): digit-check the code, fetch, regex-extract the
callback payload, JSON-decode it; every failure yields None.  jsonLoads
stands for json.loads on the extracted group. -/
def get_gz (code : String) (fetched : Except String String)
    (jsonLoads : String → Except String PVal) : Option PVal :=
  if pyStripDigit code = false then none
  else
    match fetched with
    | .error _ => none
    | .ok txt =>
      match findCallback txt.data with
      | none => none
      | some g =>
        match jsonLoads (String.mk g) with
        | .ok v => some v
        | .error _ => none

/-! ## NAV history feed (src/app.py, parse_nav_tables called there
_parse_nav_tables, lines 134-159, and get_nav, lines 162-174) -/

/-- A pandas DataFrame as far as the NAV parser observes it: column names
and rows as per-column cells. -/
structure DFrame where
  cols : List String
  rows : List (List (String × PVal))

/-- Cell of a row under a column name; pandas guarantees the looked-up
columns exist once the column check passed, so a missing key is modelled
as a cell that fails float coercion. -/
def lookupCell (row : List (String × PVal)) (c : String) : PVal :=
  match row.find? (fun p => p.1 = c) with
  | some p => p.2
  | none => .str ("KeyError")

/-- Python str() of a scalar cell. -/
def pyStrOf : PVal → String
  | .str s => s
  | .int n => toString n
  | .num q => toString q
  | .list _ => "[list]"
  | .dict _ => "[dict]"

/-- Decimal literal accepted by Python float(): optional sign, digits with
an optional fractional part (the subset NAV cells use). -/
def parseFloatQ (s : String) : Option ℚ :=
  match s.trim.data with
  | '-' :: rest =>
    match scanDigits rest with
    | ([], _) => none
    | (ds, rest2) =>
      match rest2 with
      | [] => some (-(digitsToNat ds : ℚ))
      | '.' :: rest3 =>
        match scanDigits rest3 with
        | (fs, []) =>
          some (-((digitsToNat ds : ℚ) + (digitsToNat fs : ℚ) / (10 : ℚ) ^ fs.length))
        | _ => none
      | _ => none
  | cs =>
    match scanDigits cs with
    | ([], _) => none
    | (ds, rest2) =>
      match rest2 with
      | [] => some ((digitsToNat ds : ℚ))
      | '.' :: rest3 =>
        match scanDigits rest3 with
        | (fs, []) =>
          some ((digitsToNat ds : ℚ) + (digitsToNat fs : ℚ) / (10 : ℚ) ^ fs.length)
        | _ => none
      | _ => none

/-- Python float() on a cell value: numbers pass through, strings are
parsed, anything else fails. -/
def pyFloat : PVal → Option ℚ
  | .int n => some ((n : ℚ))
  | .num q => some q
  | .str s => parseFloatQ s
  | _ => none

/-- One row of the NAV table (lines 148-155): date as stripped text, unit
NAV coerced to float; rows whose coercion fails are dropped. -/
def navRow (row : List (String × PVal)) : Option (String × ℚ) :=
  match pyFloat (lookupCell row ("单位净值")) with
  | none => none
  | some q => some ((pyStrOf (lookupCell row ("净值日期"))).trim, q)

/-- _parse_nav_tables (lines 134-159): first table, require the two NAV
columns, coerce rows, reverse newest-first to oldest-first. -/
def parse_nav_tables (tables : List DFrame) : List (String × ℚ) :=
  match tables with
  | [] => []
  | df :: _ =>
    if "净值日期" ∈ df.cols ∧ "单位净值" ∈ df.cols then
      (df.rows.filterMap navRow).reverse
    else []

/-- get_nav (lines 162-174): digit-check the code, fetch, extract tables
with pandas read_html (the readHtml argument; its raise is the .error
case), parse; every failure yields the empty list. -/
def get_nav (code : String) (fetched : Except String String)
    (readHtml : String → Except String (List DFrame)) : List (String × ℚ) :=
  if pyStripDigit code = false then []
  else
    match fetched with
    | .error _ => []
    | .ok txt =>
      match readHtml txt with
      | .error _ => []
      | .ok tables => parse_nav_tables tables

/-- A JSON decoder that always fails, for the witness. -/
def jNone : String → Except String PVal := fun _ => .error ("decode failure")

/-- A read_html that always raises, for the witness. -/
def rhNone : String → Except String (List DFrame) := fun _ => .error ("no tables found")

/-- Fuel sufficient for parseItems on the rendered rows: one unit per
parser call, bounded below by the rendered length. -/
def fuelRecs (rs : List (List String)) : Nat :=
  (rs.map (fun r => r.length + 3)).sum + 1

/-! ## Claims about the risk scorer -/

/-- Claim C2: a NAV series of fewer than 30 points, and a series of 30 or
more points leaving fewer than 10 valid returns, both make risk() return
the neutral default: score 50, a hold action, volatility 0, drawdown 0. -/
theorem risk_guard_neutral (nav : List ℚ) :
    (nav.length < 30 →
      (risk nav).score = 50 ∧ actionKind (risk nav).action = .hold ∧
      (risk nav).vol = 0 ∧ (risk nav).dd = 0) ∧
    (30 ≤ nav.length → (retsOf nav).length < 10 →
      (risk nav).score = 50 ∧ actionKind (risk nav).action = .hold ∧
      (risk nav).vol = 0 ∧ (risk nav).dd = 0) := by
  constructor
  · intro h
    rw [risk, if_pos h]
    refine ⟨rfl, by decide, rfl, rfl⟩
  · intro h1 h2
    rw [risk, if_neg (by omega), if_pos h2]
    refine ⟨rfl, by decide, rfl, rfl⟩

/-- Witness for C2: the empty series trips the first guard, and 30
non-positive points trip the second. -/
theorem risk_guard_neutral_witness :
    (([] : List ℚ).length < 30 ∧ (risk []).score = 50 ∧ actionKind (risk []).action = .hold) ∧
    (30 ≤ navNeg30.length ∧ (retsOf navNeg30).length < 10 ∧
      (risk navNeg30).score = 50 ∧ actionKind (risk navNeg30).action = .hold) := by
  have h1 := (risk_guard_neutral []).1 (by decide)
  have h2 := (risk_guard_neutral navNeg30).2 (by decide) (by decide)
  exact ⟨⟨by decide, h1.1, h1.2.1⟩, by decide, by decide, h2.1, h2.2.1⟩

/-- Claim C3, counterexample: risk([100, 50, 100]) does not yield
max_drawdown 0.5 — the 3-point series trips the insufficient-data guard
and the neutral drawdown 0 is returned. -/
theorem risk_100_50_100_cex : ¬ ((risk [(100 : ℚ), 50, 100]).dd = 1 / 2) := by
  with_unfolding_all decide

/-- Claim C3, amended: the peak-to-trough drawdown computation on
[100, 50, 100] is 0.5 (peak 100, trough 50), and risk() reports that 0.5
once the series passes the 30-point guard (here padded with 28 further
points at 100); on the bare 3-point series risk() returns the neutral
default with drawdown 0. -/
theorem risk_100_50_100_drawdown :
    maxDD [(100 : ℚ), 50, 100] = 1 / 2 ∧
    (risk navC3p).dd = 1 / 2 ∧
    (risk [(100 : ℚ), 50, 100]).dd = 0 ∧
    (risk [(100 : ℚ), 50, 100]).score = 50 ∧
    actionKind (risk [(100 : ℚ), 50, 100]).action = .hold := by
  refine ⟨by with_unfolding_all decide, ?_, by with_unfolding_all decide, by decide, by decide⟩
  rw [risk, if_neg (by decide), if_neg (by with_unfolding_all decide)]
  with_unfolding_all decide

/-- If every element of the remaining series is at least the running peak,
the drawdown accumulator stays at 0: each step sets the peak to the
current value and the candidate (peak - v)/peak vanishes. -/
theorem ddFold_zero (l : List ℚ) : ∀ peak : ℚ, (∀ x ∈ l, peak ≤ x) → l.Pairwise (· ≤ ·) →
    (l.foldl ddStep (peak, 0)).2 = 0 := by
  induction l with
  | nil => intro peak _ _; rfl
  | cons v t ih =>
    intro peak hle hp
    have hpv : peak ≤ v := hle v (by simp)
    have hstep : ddStep (peak, 0) v = (v, 0) := by
      have hpk : (if peak < v then v else peak) = v := by
        rcases lt_or_eq_of_le hpv with h | h
        · simp [h]
        · simp [h]
      simp only [ddStep, hpk]
      norm_num
    rw [List.foldl_cons, hstep]
    rcases List.pairwise_cons.mp hp with ⟨hrel, hp2⟩
    exact ih v hrel hp2

/-- On a series whose elements never drop below an earlier one, the
maximum drawdown is 0. -/
theorem maxDD_of_pairwise (nav : List ℚ) (hp : nav.Pairwise (· ≤ ·)) : maxDD nav = 0 := by
  cases nav with
  | nil => rfl
  | cons h t =>
    rw [maxDD]
    apply ddFold_zero
    · intro x hx
      rcases List.mem_cons.mp hx with rfl | hxt
      · exact le_refl _
      · exact (List.pairwise_cons.mp hp).1 x hxt
    · exact hp

/-- Claim C8: on a strictly increasing, everywhere positive NAV series,
risk() yields max_drawdown 0 (in the main branch via the peak-to-trough
loop, in the guard branches via the neutral default). -/
theorem risk_increasing_drawdown (nav : List ℚ) (hmono : nav.Chain' (· < ·))
    (_hpos : ∀ x ∈ nav, 0 < x) : (risk nav).dd = 0 := by
  have hp : nav.Pairwise (· ≤ ·) :=
    (List.chain'_iff_pairwise.mp hmono).imp (fun h => le_of_lt h)
  by_cases h1 : nav.length < 30
  · simp [risk, h1]
  · by_cases h2 : (retsOf nav).length < 10
    · simp [risk, h1, h2]
    · simp [risk, h1, h2, maxDD_of_pairwise nav hp]

/-- Witness for C8: a strictly increasing positive 31-point series. -/
theorem risk_increasing_drawdown_witness :
    navInc31.Chain' (· < ·) ∧ (∀ x ∈ navInc31, 0 < x) ∧ (risk navInc31).dd = 0 := by
  have hchain : navInc31.Chain' (· < ·) := by
    norm_num [navInc31, List.chain'_cons]
  have hpos : ∀ x ∈ navInc31, 0 < x := by
    norm_num [navInc31]
  exact ⟨hchain, hpos, risk_increasing_drawdown navInc31 hchain hpos⟩

/-- The rational population variance, cast to ℝ, is the specification
formula written over ℝ. -/
theorem pvariance_cast (xs : List ℚ) :
    ((pvariance xs : ℚ) : ℝ) =
      (((castList xs).map
          (fun r => (r - (castList xs).sum / ((castList xs).length : ℝ)) ^ 2)).sum) /
        ((castList xs).length : ℝ) := by
  rw [pvariance, castList, Rat.cast_div, Rat.cast_list_sum, List.map_map, List.map_map,
    Rat.cast_natCast, List.length_map]
  congr 1
  refine congrArg List.sum ?_
  apply List.map_congr_left
  intro a _
  simp only [Function.comp_apply]
  push_cast [Rat.cast_list_sum]
  ring

/-- Claim C1, amended: on a series of at least 30 points with at least 10
valid returns, risk() returns volatility equal to the population standard
deviation of the returns (divide by n), drawdown equal to the running
peak-to-trough maximum, score equal to
clamp(trunc(volatility*4000 + max_drawdown*200), 0, 100) with truncation
toward zero (Python int(), not rounding to nearest), and the action
determined by score > 70 (reduce), score < 35 (add), otherwise hold, the
boundary scores 70 and 35 both mapping to hold. -/
theorem risk_main_branch (nav : List ℚ) (h30 : 30 ≤ nav.length)
    (h10 : 10 ≤ (retsOf nav).length) :
    (risk nav).vol = specPstdev (retsOf nav) ∧
    (risk nav).dd = maxDD nav ∧
    (risk nav).score =
      max 0 (min 100 (pyInt (specPstdev (retsOf nav) * 4000 + ((maxDD nav : ℚ) : ℝ) * 200))) ∧
    (risk nav).action =
      (if 70 < (risk nav).score then "减仓"
       else if (risk nav).score < 35 then "加仓" else "观望") ∧
    ((risk nav).score = 70 ∨ (risk nav).score = 35 → actionKind (risk nav).action = .hold) := by
  have hg1 : ¬ nav.length < 30 := by omega
  have hg2 : ¬ (retsOf nav).length < 10 := by omega
  have hvol : riskVol nav = specPstdev (retsOf nav) := by
    rw [riskVol, specPstdev, pvariance_cast]
  rw [risk, if_neg hg1, if_neg hg2]
  dsimp only
  refine ⟨hvol, rfl, ?_, rfl, ?_⟩
  · rw [riskScore, riskScoreRaw, hvol]
  · intro h
    rw [riskAction]
    rcases h with h | h <;> rw [h] <;> norm_num <;> decide

/-- Claim C1, counterexample: on the 31-point series navC1 (which passes
both guards) the raw score is exactly 200·(1 - (124/125)^30) ≈ 42.83; the
code truncates to score 42, while the claimed clamp(round(...)) formula
gives 43. -/
theorem score_truncation_cex :
    30 ≤ navC1.length ∧ 10 ≤ (retsOf navC1).length ∧
    (risk navC1).score = 42 ∧ specScoreRound navC1 = 43 := by
  have hlen : ¬ navC1.length < 30 := by with_unfolding_all decide
  have hrets : ¬ (retsOf navC1).length < 10 := by with_unfolding_all decide
  have hvar : pvariance (retsOf navC1) = 0 := by with_unfolding_all decide
  have hdd42 : ⌊maxDD navC1 * 200⌋ = 42 := by with_unfolding_all decide
  have hdd43 : round (maxDD navC1 * 200) = 43 := by with_unfolding_all decide
  have hddnn : (0 : ℚ) ≤ maxDD navC1 * 200 := by with_unfolding_all decide
  have hcast : ((maxDD navC1 : ℚ) : ℝ) * 200 = ((maxDD navC1 * 200 : ℚ) : ℝ) := by
    push_cast
    ring
  have hsp : specPstdev (retsOf navC1) = 0 := by
    rw [specPstdev, ← pvariance_cast, hvar, Rat.cast_zero, Real.sqrt_zero]
  refine ⟨by omega, by omega, ?_, ?_⟩
  · rw [risk, if_neg hlen, if_neg hrets]
    dsimp only
    rw [riskScore, riskScoreRaw, riskVol, hvar, Rat.cast_zero, Real.sqrt_zero, zero_mul,
      zero_add, hcast, pyInt, if_pos (by exact_mod_cast hddnn), Rat.floor_cast, hdd42]
    decide
  · rw [specScoreRound, hsp, zero_mul, zero_add, hcast, Rat.round_cast, hdd43]
    decide

/-- Witness for C1: the constant 31-point series passes both guards; the
amended formula applies to it. -/
theorem risk_main_branch_witness :
    30 ≤ navConst31.length ∧ 10 ≤ (retsOf navConst31).length ∧
    (risk navConst31).vol = specPstdev (retsOf navConst31) ∧
    (risk navConst31).dd = maxDD navConst31 := by
  have h30 : 30 ≤ navConst31.length := by with_unfolding_all decide
  have h10 : 10 ≤ (retsOf navConst31).length := by with_unfolding_all decide
  have h := risk_main_branch navConst31 h30 h10
  exact ⟨h30, h10, h.1, h.2.1⟩

/-- Behaviour of the retry loop from attempt k >= 1 when every remaining
attempt fails: r further attempts run, each preceded by its backoff sleep
0.8 * index, and the result is the error of the last attempt (or the
carried last error when none remain). -/
theorem safe_get_go_all_fail (transport : Nat → Except String String) :
    ∀ (r k : Nat) (le0 : Option String), 1 ≤ k →
      (∀ j, k ≤ j → j < k + r → (errOf (transport j)).isSome) →
      (safe_get_go transport k r le0).attempts = r ∧
      (safe_get_go transport k r le0).sleeps =
        (List.range' k r).map (fun (j : ℕ) => (4 / 5 : ℚ) * (j : ℚ)) ∧
      (r = 0 →
        (safe_get_go transport k r le0).result =
          .error (le0.getD ("TypeError: raise of None"))) ∧
      (∀ e, 1 ≤ r → transport (k + r - 1) = .error e →
        (safe_get_go transport k r le0).result = .error e) := by
  intro r
  induction r with
  | zero =>
    intro k le0 _ _
    refine ⟨rfl, rfl, fun _ => rfl, fun e h => absurd h (by omega)⟩
  | succ r ih =>
    intro k le0 hk hfail
    have hks := hfail k (le_refl k) (by omega)
    cases htk : transport k with
    | ok b => rw [htk] at hks; simp [errOf] at hks
    | error e =>
      have hstep : safe_get_go transport k (r + 1) le0 =
          ⟨(safe_get_go transport (k + 1) r (some e)).result,
           (safe_get_go transport (k + 1) r (some e)).attempts + 1,
           (if 0 < k then [(4 / 5 : ℚ) * (k : ℚ)] else []) ++
             (safe_get_go transport (k + 1) r (some e)).sleeps⟩ := by
        conv_lhs => rw [safe_get_go]
        rw [htk]
      have hrec := ih (k + 1) (some e) (by omega)
        (fun j hj1 hj2 => hfail j (by omega) (by omega))
      rw [hstep]
      refine ⟨by simp [hrec.1], ?_, fun habs => absurd habs (by omega), ?_⟩
      · show (if 0 < k then [(4 / 5 : ℚ) * (k : ℚ)] else []) ++
            (safe_get_go transport (k + 1) r (some e)).sleeps =
          (List.range' k (r + 1)).map (fun (j : ℕ) => (4 / 5 : ℚ) * (j : ℚ))
        rw [if_pos (by omega), hrec.2.1, List.range'_succ, List.map_cons]
        rfl
      · intro e2 _ hlast
        cases r with
        | zero =>
          have h0 := hrec.2.2.1 rfl
          have heq : transport k = .error e2 := by
            have hk' : k + (0 + 1) - 1 = k := by omega
            rw [hk'] at hlast
            exact hlast
          rw [htk] at heq
          cases heq
          simpa using h0
        | succ r2 =>
          refine hrec.2.2.2 e2 (by omega) ?_
          have heq : k + 1 + (r2 + 1) - 1 = k + (r2 + 1 + 1) - 1 := by omega
          rw [heq]
          exact hlast

/-- Claim C5: with max_retries >= 1 and a transport failing on every
attempt, _safe_get performs exactly max_retries attempts, sleeps
0.8 * attempt_index before each retry attempt (none before the first),
and ends with the error of the last attempt, message preserved. -/
theorem safe_get_retries (transport : Nat → Except String String) (retries : Nat)
    (h1 : 1 ≤ retries)
    (hfail : ∀ j, j < retries → (errOf (transport j)).isSome) :
    (safe_get transport retries).attempts = retries ∧
    (safe_get transport retries).sleeps =
      (List.range' 1 (retries - 1)).map (fun (j : ℕ) => (4 / 5 : ℚ) * (j : ℚ)) ∧
    (∀ e, transport (retries - 1) = .error e →
      (safe_get transport retries).result = .error e) := by
  cases retries with
  | zero => omega
  | succ r =>
    have h0s := hfail 0 (by omega)
    cases ht0 : transport 0 with
    | ok b => rw [ht0] at h0s; simp [errOf] at h0s
    | error e0 =>
      have hstep : safe_get transport (r + 1) =
          ⟨(safe_get_go transport 1 r (some e0)).result,
           (safe_get_go transport 1 r (some e0)).attempts + 1,
           ([] : List ℚ) ++ (safe_get_go transport 1 r (some e0)).sleeps⟩ := by
        rw [safe_get]
        conv_lhs => rw [safe_get_go]
        rw [ht0]
        rfl
      have hrec := safe_get_go_all_fail transport r 1 (some e0) (le_refl 1)
        (fun j hj1 hj2 => hfail j (by omega))
      rw [hstep]
      refine ⟨by simp [hrec.1], ?_, ?_⟩
      · show ([] : List ℚ) ++ (safe_get_go transport 1 r (some e0)).sleeps =
          (List.range' 1 (r + 1 - 1)).map (fun (j : ℕ) => (4 / 5 : ℚ) * (j : ℚ))
        rw [List.nil_append, hrec.2.1]
        rfl
      · intro e hlast
        cases r with
        | zero =>
          have h0 := hrec.2.2.1 rfl
          simp only [Nat.add_sub_cancel] at hlast
          rw [ht0] at hlast
          cases hlast
          simpa using h0
        | succ r2 =>
          refine hrec.2.2.2 e (by omega) ?_
          have heq : 1 + (r2 + 1) - 1 = r2 + 1 + 1 - 1 := by omega
          rw [heq]
          exact hlast

/-- Witness for C5: an always-failing transport with max_retries = 3 gives
3 attempts, sleeps 0.8 and 1.6 (cumulatively 2.4 seconds), and the error
of attempt 2 (0-based), message preserved. -/
theorem safe_get_retries_witness :
    (safe_get tr3 3).attempts = 3 ∧
    (safe_get tr3 3).sleeps = [4 / 5, 8 / 5] ∧
    (safe_get tr3 3).sleeps.sum = 12 / 5 ∧
    (safe_get tr3 3).result = .error ("boom 2") := by
  have h := safe_get_retries tr3 3 (by omega) (by decide)
  refine ⟨h.1, ?_, ?_, h.2.2 ("boom 2") rfl⟩
  · rw [h.2.1]
    with_unfolding_all decide
  · rw [h.2.1]
    with_unfolding_all decide

/-- Claim C7: every failure mode of the valuation fetch and the NAV fetch
degrades to the empty result instead of raising: a non-digit code, a
transport error after retries, a payload without the callback pattern, a
JSON decode failure, a raising read_html, a payload without tables, and a
first table missing the needed columns. -/
theorem soft_empty (code : String) (fetched : Except String String)
    (jsonLoads : String → Except String PVal)
    (readHtml : String → Except String (List DFrame)) :
    (pyStripDigit code = false →
      get_gz code fetched jsonLoads = none ∧ get_nav code fetched readHtml = []) ∧
    (∀ e, fetched = .error e →
      get_gz code fetched jsonLoads = none ∧ get_nav code fetched readHtml = []) ∧
    (∀ t, fetched = .ok t → findCallback t.data = none →
      get_gz code fetched jsonLoads = none) ∧
    (∀ t g e2, fetched = .ok t → findCallback t.data = some g →
      jsonLoads (String.mk g) = .error e2 → get_gz code fetched jsonLoads = none) ∧
    (∀ t e3, fetched = .ok t → readHtml t = .error e3 →
      get_nav code fetched readHtml = []) ∧
    (∀ t, fetched = .ok t → readHtml t = .ok [] →
      get_nav code fetched readHtml = []) ∧
    (∀ t df rest, fetched = .ok t → readHtml t = .ok (df :: rest) →
      ¬ ("净值日期" ∈ df.cols ∧ "单位净值" ∈ df.cols) →
      get_nav code fetched readHtml = []) := by
  refine ⟨?_, ?_, ?_, ?_, ?_, ?_, ?_⟩
  · intro h
    exact ⟨by simp [get_gz, h], by simp [get_nav, h]⟩
  · intro e he
    subst he
    by_cases hd : pyStripDigit code = false
    · exact ⟨by simp [get_gz, hd], by simp [get_nav, hd]⟩
    · exact ⟨by simp [get_gz, hd], by simp [get_nav, hd]⟩
  · intro t ht hfc
    subst ht
    by_cases hd : pyStripDigit code = false
    · simp [get_gz, hd]
    · simp [get_gz, hd, hfc]
  · intro t g e2 ht hfc hj
    subst ht
    by_cases hd : pyStripDigit code = false
    · simp [get_gz, hd]
    · simp [get_gz, hd, hfc, hj]
  · intro t e3 ht hr
    subst ht
    by_cases hd : pyStripDigit code = false
    · simp [get_nav, hd]
    · simp [get_nav, hd, hr]
  · intro t ht hr
    subst ht
    by_cases hd : pyStripDigit code = false
    · simp [get_nav, hd]
    · simp [get_nav, hd, hr, parse_nav_tables]
  · intro t df rest ht hr hcols
    subst ht
    by_cases hd : pyStripDigit code = false
    · simp [get_nav, hd]
    · simp [get_nav, hd, hr, parse_nav_tables, hcols]

/-- Witness for C7: concrete instances of the failure modes — transport
error, payload without callback pattern, and failing JSON decode — all
degrade to the empty result. -/
theorem soft_empty_witness :
    get_gz ("161725") (.error ("down")) jNone = none ∧
    get_nav ("161725") (.error ("down")) rhNone = [] ∧
    get_gz ("161725") (.ok ("hello")) jNone = none ∧
    get_gz ("161725") (.ok ("cb({a:1})")) jNone = none ∧
    get_nav ("161725") (.ok ("page")) rhNone = [] := by
  have h1 := (soft_empty ("161725") (.error ("down")) jNone rhNone).2.1 ("down") rfl
  have h2 := (soft_empty ("161725") (.ok ("hello")) jNone rhNone).2.2.1 ("hello") rfl
    (by decide)
  have h3 := (soft_empty ("161725") (.ok ("cb({a:1})")) jNone rhNone).2.2.2.1
    ("cb({a:1})") ("{a:1}".data) ("decode failure") rfl (by decide) rfl
  have h4 := (soft_empty ("161725") (.ok ("page")) jNone rhNone).2.2.2.2.1
    ("page") ("no tables found") rfl rfl
  exact ⟨h1.1, h1.2, h2, h3, h4⟩

/-- When the online fetch-and-parse fails with error e, the loader is
exactly the fallback decision on the cache state: usable cache data
tagged with the cache provenance, or the fatal RuntimeError. -/
theorem load_eq_fallback (fetched : Except String String) (now : String) (fs : FileState)
    (e : String) (hfail : fetchParse fetched = .error e) :
    load_funds_hardened fetched now fs =
      (match usableCache fs with
       | some d => (.ok (d, cacheTag e), fs)
       | none => (.error (fatalMsg e), fs)) := by
  rw [load_funds_hardened, usableCache, hfail]
  dsimp only
  cases fs.cacheFile with
  | none => rfl
  | some c =>
    cases c with
    | error ce => rfl
    | ok cached =>
      dsimp only
      cases pyDictGet cached ("data") (.list []) with
      | error ge => rfl
      | ok v =>
        cases v with
        | list data =>
          dsimp only
          by_cases hlen : 1000 < data.length
          · simp [hlen]
          · simp [hlen]
        | str s => rfl
        | int n => rfl
        | num q => rfl
        | dict fl => rfl

/-- On a successful online fetch-and-parse the loader returns the data
tagged online and overwrites the snapshot. -/
theorem load_eq_online (fetched : Except String String) (now : String) (fs : FileState)
    (data : List PVal) (hok : fetchParse fetched = .ok data) :
    load_funds_hardened fetched now fs =
      (.ok (data, "online"), ⟨some (.ok (snapshot now data))⟩) := by
  rw [load_funds_hardened, hok]

/-- Claim C4: when the online fetch-and-parse fails with error e, the
loader returns usable cached data tagged with the cache provenance that
embeds e; with no usable cache it fails with the RuntimeError embedding e;
and every failing load is of exactly that shape — the only caller-fatal
condition. -/
theorem load_fallback (fetched : Except String String) (now : String) (fs : FileState)
    (e : String) (hfail : fetchParse fetched = .error e) :
    (∀ d, usableCache fs = some d →
      load_funds_hardened fetched now fs = (.ok (d, cacheTag e), fs)) ∧
    (usableCache fs = none →
      load_funds_hardened fetched now fs = (.error (fatalMsg e), fs)) ∧
    (∀ fetched2 now2 fs2 msg,
      (load_funds_hardened fetched2 now2 fs2).1 = .error msg →
      ∃ e2, fetchParse fetched2 = .error e2 ∧ usableCache fs2 = none ∧
        msg = fatalMsg e2) := by
  refine ⟨?_, ?_, ?_⟩
  · intro d hd
    rw [load_eq_fallback fetched now fs e hfail, hd]
  · intro hnone
    rw [load_eq_fallback fetched now fs e hfail, hnone]
  · intro fetched2 now2 fs2 msg hmsg
    cases hfp : fetchParse fetched2 with
    | ok data =>
      rw [load_eq_online fetched2 now2 fs2 data hfp] at hmsg
      cases hmsg
    | error e2 =>
      rw [load_eq_fallback fetched2 now2 fs2 e2 hfp] at hmsg
      cases husable : usableCache fs2 with
      | some d => rw [husable] at hmsg; cases hmsg
      | none =>
        rw [husable] at hmsg
        cases hmsg
        exact ⟨e2, rfl, rfl, rfl⟩

/-- Witness for C4: a failing fetch with a usable 1001-row cache returns
the cached rows tagged with the embedded error; the same failing fetch
with no cache file fails with the fatal message. -/
theorem load_fallback_witness :
    fetchParse (.error ("netdown")) = .error ("netdown") ∧
    usableCache fsA = some cachedD ∧
    usableCache fsB = none ∧
    load_funds_hardened (.error ("netdown")) ("2026-01-02") fsA =
      (.ok (cachedD, cacheTag ("netdown")), fsA) ∧
    load_funds_hardened (.error ("netdown")) ("2026-01-02") fsB =
      (.error (fatalMsg ("netdown")), fsB) := by
  have hf : fetchParse (.error ("netdown")) = .error ("netdown") := rfl
  have hA : usableCache fsA = some cachedD := rfl
  have hB : usableCache fsB = none := rfl
  have h := load_fallback (.error ("netdown")) ("2026-01-02") fsA ("netdown") hf
  have h2 := load_fallback (.error ("netdown")) ("2026-01-02") fsB ("netdown") hf
  exact ⟨hf, hA, hB, h.1 cachedD hA, h2.2.1 hB⟩

/-- skipWs does nothing on text that does not start with whitespace. -/
theorem skipWs_not_ws {c : Char} (h : wsChar c = false) (l : List Char) :
    skipWs (c :: l) = c :: l := by
  simp [skipWs, h]

/-- The lazy body search run on text ++ ]]; finds exactly the text when
the text contains no semicolon: no earlier ]]; can occur. -/
theorem findEnd_append (mid : List Char) (h : ';' ∉ mid) :
    findEnd (mid ++ [']', ']', ';']) = some mid := by
  induction mid with
  | nil => rfl
  | cons c rest ih =>
    have hrest : ';' ∉ rest := fun hr => h (List.mem_cons_of_mem _ hr)
    have hss : startsStop (c :: (rest ++ [']', ']', ';'])) = false := by
      cases rest with
      | nil => simp [startsStop]
      | cons r1 t =>
        cases t with
        | nil => simp [startsStop]
        | cons r2 t2 =>
          have hr2 : r2 ≠ ';' := by
            intro hr2
            exact hrest (by simp [hr2])
          simp [startsStop, hr2]
    rw [List.cons_append, findEnd, hss]
    simp only [Bool.false_eq_true, if_false]
    rw [ih hrest]
    rfl

/-- Characters of a comma-join come from the pieces or are commas. -/
theorem mem_joinComma {c : Char} : ∀ {L : List (List Char)},
    c ∈ joinComma L → c = ',' ∨ ∃ x ∈ L, c ∈ x := by
  intro L
  induction L with
  | nil => intro h; cases h
  | cons x t ih =>
    cases t with
    | nil =>
      intro h
      rw [joinComma] at h
      exact Or.inr ⟨x, by simp, h⟩
    | cons y t2 =>
      intro h
      rw [joinComma, List.mem_append] at h
      rcases h with h | h
      · exact Or.inr ⟨x, by simp, h⟩
      · rcases List.mem_cons.mp h with h2 | h2
        · exact Or.inl h2
        · rcases ih h2 with h3 | ⟨z, hz1, hz2⟩
          · exact Or.inl h3
          · exact Or.inr ⟨z, by simp [hz1], hz2⟩

/-- Characters of a rendered string field are the quotes or field
characters. -/
theorem mem_renderStrC {c : Char} {s : String} (h : c ∈ renderStrC s) :
    c = '"' ∨ c ∈ s.data := by
  rw [renderStrC] at h
  rcases List.mem_cons.mp h with h2 | h2
  · exact Or.inl h2
  · rcases List.mem_append.mp h2 with h3 | h3
    · exact Or.inr h3
    · rcases List.mem_singleton.mp h3 with rfl
      exact Or.inl rfl

/-- No semicolon occurs in the rendered array literal of safe rows. -/
theorem no_semi_renderListC {rs : List (List String)} (hsafe : allSafe rs = true) :
    ';' ∉ renderListC rs := by
  intro hmem
  rw [renderListC] at hmem
  rcases List.mem_cons.mp hmem with h | h
  · cases h
  · rcases List.mem_append.mp h with h | h
    · rcases mem_joinComma h with h2 | ⟨x, hx1, hx2⟩
      · cases h2
      · rcases List.mem_map.mp hx1 with ⟨r, hr1, rfl⟩
        rw [renderRecC] at hx2
        rcases List.mem_cons.mp hx2 with h3 | h3
        · cases h3
        · rcases List.mem_append.mp h3 with h4 | h4
          · rcases mem_joinComma h4 with h5 | ⟨y, hy1, hy2⟩
            · cases h5
            · rcases List.mem_map.mp hy1 with ⟨s, hs1, rfl⟩
              rcases mem_renderStrC hy2 with h6 | h6
              · cases h6
              · have hr := (List.all_eq_true.mp hsafe) r hr1
                have hs := (List.all_eq_true.mp hr) s hs1
                have hc := (List.all_eq_true.mp hs) ';' h6
                simp [safeChar] at hc
          · exact absurd (List.mem_singleton.mp h4) (by decide)
    · exact absurd (List.mem_singleton.mp h) (by decide)

/-- A comma-join of nonempty bracketed blocks is itself one bracketed
block. -/
theorem joinComma_blocks : ∀ (L : List (List Char)), L ≠ [] →
    (∀ x ∈ L, ∃ b, x = '[' :: b ++ [']']) →
    ∃ M, joinComma L = '[' :: M ++ [']'] := by
  intro L
  induction L with
  | nil => intro h _; cases h rfl
  | cons x t ih =>
    intro _ hx
    cases t with
    | nil =>
      obtain ⟨b, hb⟩ := hx x (by simp)
      exact ⟨b, by rw [joinComma, hb]⟩
    | cons y t2 =>
      obtain ⟨b, hb⟩ := hx x (by simp)
      obtain ⟨M2, hM2⟩ := ih (by simp) (fun z hz => hx z (by simp [hz]))
      refine ⟨b ++ ']' :: ',' :: '[' :: M2, ?_⟩
      rw [joinComma, hb, hM2]
      simp

/-- The rendered array literal of a nonempty row list opens with two
brackets and closes with two. -/
theorem renderListC_decomp (r0 : List String) (rs' : List (List String)) :
    ∃ M, renderListC (r0 :: rs') = '[' :: '[' :: M ++ [']', ']'] := by
  obtain ⟨M, hM⟩ := joinComma_blocks (List.map renderRecC (r0 :: rs')) (by simp)
    (fun x hx => by
      rcases List.mem_map.mp hx with ⟨r, _, rfl⟩
      exact ⟨joinComma (r.map renderStrC), rfl⟩)
  refine ⟨M, ?_⟩
  rw [renderListC, hM]
  simp

/-- The regex pattern anchored at the rendered prefix var r = [[ reduces
to the lazy body search. -/
theorem matchAt_shape (t : List Char) :
    matchAt ('v' :: 'a' :: 'r' :: ' ' :: 'r' :: ' ' :: '=' :: ' ' :: '[' :: '[' :: t) =
      (findEnd t).map (fun body => '[' :: '[' :: body ++ [']', ']']) := rfl

/-- On a rendered payload of safe rows, the regex search extracts exactly
the rendered array literal. -/
theorem reSearch_payload (rs : List (List String)) (hne : rs ≠ [])
    (hsafe : allSafe rs = true) :
    reSearchVarR (payloadChars rs) = some (renderListC rs) := by
  obtain ⟨r0, rs', rfl⟩ : ∃ r0 rs', rs = r0 :: rs' := by
    cases rs with
    | nil => cases hne rfl
    | cons a b => exact ⟨a, b, rfl⟩
  obtain ⟨M, hM⟩ := renderListC_decomp r0 rs'
  have hsemi : ';' ∉ M := by
    intro hm
    refine no_semi_renderListC hsafe ?_
    rw [hM]
    simp [hm]
  have hpay : payloadChars (r0 :: rs') =
      'v' :: 'a' :: 'r' :: ' ' :: 'r' :: ' ' :: '=' :: ' ' :: '[' :: '[' ::
        (M ++ [']', ']', ';']) := by
    rw [payloadChars, hM]
    simp
  rw [hpay, reSearchVarR, matchAt_shape, findEnd_append M hsemi]
  simp [hM]

/-- Scanning a safe field body finds the closing quote exactly at its
end. -/
theorem scanStr_append (s : List Char) : ∀ rest : List Char,
    s.all safeChar = true → scanStr (s ++ '"' :: rest) = some (s, rest) := by
  induction s with
  | nil => intro rest _; rfl
  | cons c t ih =>
    intro rest hsafe
    rw [List.all_cons, Bool.and_eq_true] at hsafe
    have hc := hsafe.1
    simp only [safeChar, decide_eq_true_eq] at hc
    push_neg at hc
    rw [List.cons_append, scanStr, if_neg hc.1, if_neg (by tauto), ih rest hsafe.2]
    rfl

/-- parseVal on a double quote dispatches to the string scanner. -/
theorem parseVal_quote (f : Nat) (l : List Char) :
    parseVal (f + 1) ('"' :: l) =
      (scanStr l).map (fun p => (.str (String.mk p.1), p.2)) := by
  rw [parseVal, skipWs_not_ws (by rfl)]
  dsimp only
  rw [if_neg (by decide), if_pos rfl]
  cases h : scanStr l with
  | none => rfl
  | some p => rfl

/-- Parsing a rendered string field against text that continues after the
closing quote. -/
theorem parseVal_str2 (f : Nat) (s : String) (rest : List Char)
    (hs : s.data.all safeChar = true) :
    parseVal (f + 1) ('"' :: (s.data ++ '"' :: rest)) = some (.str s, rest) := by
  rw [parseVal_quote, scanStr_append s.data rest hs]
  rfl

/-- Parsing a rendered string field. -/
theorem parseVal_str (f : Nat) (s : String) (rest : List Char)
    (hs : s.data.all safeChar = true) :
    parseVal (f + 1) (renderStrC s ++ rest) = some (.str s, rest) := by
  have h : renderStrC s ++ rest = '"' :: (s.data ++ '"' :: rest) := by simp [renderStrC]
  rw [h, parseVal_str2 f s rest hs]

/-- Parsing the comma-joined rendered fields of one row, up to the
closing bracket. -/
theorem parseItems_strs : ∀ (r : List String) (f : Nat) (rest : List Char),
    r.all (fun s => s.data.all safeChar) = true → r.length + 1 ≤ f →
    parseItems f (joinComma (r.map renderStrC) ++ ']' :: rest) =
      some (r.map PVal.str, rest) := by
  intro r
  induction r with
  | nil =>
    intro f rest _ hf
    obtain ⟨f', rfl⟩ : ∃ f', f = f' + 1 := ⟨f - 1, by omega⟩
    rw [List.map_nil, joinComma, List.nil_append]
    rw [parseItems, skipWs_not_ws (by rfl)]
    dsimp only
    rw [if_pos rfl]
    rfl
  | cons s t ih =>
    intro f rest hsafe hf
    rw [List.all_cons, Bool.and_eq_true] at hsafe
    rw [List.length_cons] at hf
    obtain ⟨f'', rfl⟩ : ∃ f'', f = f'' + 1 + 1 := ⟨f - 2, by omega⟩
    cases t with
    | nil =>
      have hshape : joinComma ([s].map renderStrC) ++ ']' :: rest =
          '"' :: (s.data ++ '"' :: (']' :: rest)) := by
        simp [joinComma, renderStrC]
      rw [hshape, parseItems, skipWs_not_ws (by rfl)]
      dsimp only
      rw [if_neg (by decide)]
      rw [parseVal_str2 f'' s (']' :: rest) hsafe.1]
      dsimp only
      rw [skipWs_not_ws (by rfl)]
      dsimp only
      rw [if_neg (by decide), if_pos rfl]
      rfl
    | cons s2 t2 =>
      have hshape : joinComma ((s :: s2 :: t2).map renderStrC) ++ ']' :: rest =
          '"' :: (s.data ++ '"' ::
            (',' :: (joinComma ((s2 :: t2).map renderStrC) ++ ']' :: rest))) := by
        simp [joinComma, renderStrC]
      rw [hshape, parseItems, skipWs_not_ws (by rfl)]
      dsimp only
      rw [if_neg (by decide)]
      rw [parseVal_str2 f'' s _ hsafe.1]
      dsimp only
      rw [skipWs_not_ws (by rfl)]
      dsimp only
      rw [if_pos rfl]
      rw [ih (f'' + 1) rest hsafe.2 (by simp only [List.length_cons] at hf ⊢; omega)]
      rfl

/-- Parsing one rendered row. -/
theorem parseVal_rec (r : List String) (f : Nat) (rest : List Char)
    (hsafe : r.all (fun s => s.data.all safeChar) = true)
    (hf : r.length + 2 ≤ f) :
    parseVal f (renderRecC r ++ rest) = some (encodeRec r, rest) := by
  obtain ⟨f', rfl⟩ : ∃ f', f = f' + 1 := ⟨f - 1, by omega⟩
  have hshape : renderRecC r ++ rest =
      '[' :: (joinComma (r.map renderStrC) ++ ']' :: rest) := by
    simp [renderRecC]
  rw [hshape, parseVal, skipWs_not_ws (by rfl)]
  dsimp only
  rw [if_pos rfl]
  rw [parseItems_strs r f' rest hsafe (by omega)]
  rfl

/-- Parsing the comma-joined rendered rows, up to the closing bracket. -/
theorem parseItems_recs : ∀ (rs : List (List String)) (f : Nat) (rest : List Char),
    allSafe rs = true → fuelRecs rs ≤ f →
    parseItems f (joinComma (rs.map renderRecC) ++ ']' :: rest) =
      some (encodeRecs rs, rest) := by
  intro rs
  induction rs with
  | nil =>
    intro f rest _ hf
    obtain ⟨f', rfl⟩ : ∃ f', f = f' + 1 := ⟨f - 1, by rw [fuelRecs] at hf; omega⟩
    rw [List.map_nil, joinComma, List.nil_append]
    rw [parseItems, skipWs_not_ws (by rfl)]
    dsimp only
    rw [if_pos rfl]
    rfl
  | cons r t ih =>
    intro f rest hsafe hf
    rw [allSafe, List.all_cons, Bool.and_eq_true] at hsafe
    rw [fuelRecs, List.map_cons, List.sum_cons] at hf
    obtain ⟨f', rfl⟩ : ∃ f', f = f' + 1 := ⟨f - 1, by omega⟩
    cases t with
    | nil =>
      have hshape : joinComma ([r].map renderRecC) ++ ']' :: rest =
          renderRecC r ++ (']' :: rest) := by
        simp [joinComma]
      rw [hshape, parseItems]
      have hhead : ∃ l, renderRecC r ++ (']' :: rest) = '[' :: l ∧
          l = joinComma (r.map renderStrC) ++ ']' :: ']' :: rest := by
        refine ⟨joinComma (r.map renderStrC) ++ ']' :: ']' :: rest, ?_, rfl⟩
        simp [renderRecC]
      obtain ⟨l, hl, hl2⟩ := hhead
      rw [hl, skipWs_not_ws (by rfl)]
      dsimp only
      rw [if_neg (by decide)]
      rw [show ('[' :: l) = renderRecC r ++ (']' :: rest) from hl.symm]
      rw [parseVal_rec r f' (']' :: rest) hsafe.1 (by omega)]
      dsimp only
      rw [skipWs_not_ws (by rfl)]
      dsimp only
      rw [if_neg (by decide), if_pos rfl]
      rfl
    | cons r2 t2 =>
      have hshape : joinComma ((r :: r2 :: t2).map renderRecC) ++ ']' :: rest =
          renderRecC r ++ (',' :: (joinComma ((r2 :: t2).map renderRecC) ++ ']' :: rest)) := by
        simp [joinComma]
      rw [hshape, parseItems]
      have hhead : renderRecC r ++ (',' :: (joinComma ((r2 :: t2).map renderRecC) ++ ']' :: rest)) =
          '[' :: (joinComma (r.map renderStrC) ++ ']' ::
            (',' :: (joinComma ((r2 :: t2).map renderRecC) ++ ']' :: rest))) := by
        simp [renderRecC]
      rw [hhead, skipWs_not_ws (by rfl)]
      dsimp only
      rw [if_neg (by decide)]
      rw [← hhead, parseVal_rec r f' _ hsafe.1 (by omega)]
      dsimp only
      rw [skipWs_not_ws (by rfl)]
      dsimp only
      rw [if_pos rfl]
      rw [ih f' rest hsafe.2 (by rw [fuelRecs]; omega)]
      rfl

/-- Parsing the full rendered array literal. -/
theorem parseVal_recs (rs : List (List String)) (f : Nat) (rest : List Char)
    (hsafe : allSafe rs = true) (hf : fuelRecs rs + 1 ≤ f) :
    parseVal f (renderListC rs ++ rest) = some (.list (encodeRecs rs), rest) := by
  obtain ⟨f', rfl⟩ : ∃ f', f = f' + 1 := ⟨f - 1, by omega⟩
  have hshape : renderListC rs ++ rest =
      '[' :: (joinComma (rs.map renderRecC) ++ ']' :: rest) := by
    simp [renderListC]
  rw [hshape, parseVal, skipWs_not_ws (by rfl)]
  dsimp only
  rw [if_pos rfl]
  rw [parseItems_recs rs f' rest hsafe (by omega)]

/-- A row has at most as many fields as its rendering has characters. -/
theorem strRow_le (r : List String) :
    r.length ≤ (joinComma (r.map renderStrC)).length := by
  induction r with
  | nil => simp [joinComma]
  | cons s t ih =>
    cases t with
    | nil => simp [joinComma, renderStrC]
    | cons s2 t2 =>
      rw [List.map_cons, List.map_cons, joinComma]
      rw [List.map_cons] at ih
      simp only [renderStrC, List.length_cons, List.length_append] at *
      omega

/-- The parser fuel measure is bounded by the rendered length. -/
theorem fuelRecs_le (rs : List (List String)) :
    fuelRecs rs ≤ (renderListC rs).length := by
  rw [fuelRecs, renderListC]
  suffices h : (rs.map (fun r => r.length + 3)).sum ≤
      (joinComma (rs.map renderRecC)).length + 1 by
    simp only [List.length_cons, List.length_append, List.length_nil]
    omega
  induction rs with
  | nil => simp [joinComma]
  | cons r t ih =>
    cases t with
    | nil =>
      have h1 := strRow_le r
      simp only [List.map_cons, List.map_nil, List.sum_cons, List.sum_nil, joinComma,
        renderRecC, List.length_cons, List.length_append, List.length_nil]
      simp only [List.length_cons, List.length_nil] at h1 ⊢
      omega
    | cons r2 t2 =>
      have h1 := strRow_le r
      simp only [List.map_cons, List.sum_cons] at ih ⊢
      rw [joinComma]
      simp only [renderRecC, List.length_cons, List.length_append, List.length_nil] at *
      omega

/-- literal_eval on the extracted array literal of safe rows returns the
encoded rows. -/
theorem literalEval_payload (rs : List (List String)) (hsafe : allSafe rs = true) :
    literalEval (String.mk (renderListC rs)) = some (.list (encodeRecs rs)) := by
  rw [literalEval]
  have hdata : (String.mk (renderListC rs)).data = renderListC rs := rfl
  have hlen : (String.mk (renderListC rs)).length = (renderListC rs).length := rfl
  rw [hdata, hlen]
  have hskip : skipWs (renderListC rs) = renderListC rs := by
    rw [renderListC]
    exact skipWs_not_ws (by rfl) _
  rw [hskip]
  have hparse : parseVal (2 * (renderListC rs).length + 2) (renderListC rs ++ []) =
      some (.list (encodeRecs rs), []) :=
    parseVal_recs rs _ [] hsafe (by have := fuelRecs_le rs; omega)
  rw [List.append_nil] at hparse
  rw [hparse]
  rfl

/-- The full directory parse of a rendered payload with at least 1000 safe
rows succeeds with exactly those rows in original order. -/
theorem parse_payload_ok (rs : List (List String)) (hsafe : allSafe rs = true)
    (hlen : 1000 ≤ rs.length) :
    parse_fund_list (payloadStr rs) = .ok (encodeRecs rs) := by
  have hne : rs ≠ [] := by
    intro h
    rw [h] at hlen
    simp at hlen
  rw [parse_fund_list]
  have hd : (payloadStr rs).data = payloadChars rs := rfl
  rw [hd, reSearch_payload rs hne hsafe]
  dsimp only
  rw [literalEval_payload rs hsafe]
  dsimp only
  rw [if_neg (by rw [encodeRecs, List.length_map]; omega)]

/-- The directory parse succeeds precisely on payloads whose regex
extraction and literal evaluation produce a list of at least 1000 rows. -/
theorem parse_fund_list_ok_iff (s : String) (l : List PVal) :
    parse_fund_list s = .ok l ↔
      ((∃ g, reSearchVarR s.data = some g ∧
        literalEval (String.mk g) = some (.list l)) ∧ 1000 ≤ l.length) := by
  constructor
  · intro h
    rw [parse_fund_list] at h
    cases hr : reSearchVarR s.data with
    | none => rw [hr] at h; cases h
    | some g =>
      rw [hr] at h
      dsimp only at h
      cases he : literalEval (String.mk g) with
      | none => rw [he] at h; cases h
      | some v =>
        rw [he] at h
        dsimp only at h
        cases v with
        | list l2 =>
          dsimp only at h
          by_cases hl : l2.length < 1000
          · rw [if_pos hl] at h; cases h
          · rw [if_neg hl] at h
            cases h
            exact ⟨⟨g, rfl, he⟩, by omega⟩
        | str s2 => cases h
        | int n => cases h
        | num q => cases h
        | dict fl => cases h
  · rintro ⟨⟨g, hg, he⟩, hlen⟩
    rw [parse_fund_list, hg]
    dsimp only
    rw [he]
    dsimp only
    rw [if_neg (by omega)]

/-- The length guarantee of a successful directory parse. -/
theorem parse_ok_length {t : String} {l : List PVal}
    (h : parse_fund_list t = .ok l) : 1000 ≤ l.length :=
  ((parse_fund_list_ok_iff t l).mp h).2

/-- Claim C6: the directory parser succeeds exactly when the var r = [[...]]
pattern is found, its literal evaluation succeeds, and the result is a
list of at least 1000 rows; and a well-formed rendered payload (with at
least 1000 rows of safe fields) parses to exactly those rows in original
order. -/
theorem parse_fund_list_spec :
    (∀ s l, parse_fund_list s = .ok l ↔
      ((∃ g, reSearchVarR s.data = some g ∧
        literalEval (String.mk g) = some (.list l)) ∧ 1000 ≤ l.length)) ∧
    (∀ rs, allSafe rs = true → 1000 ≤ rs.length →
      parse_fund_list (payloadStr rs) = .ok (encodeRecs rs)) :=
  ⟨parse_fund_list_ok_iff, parse_payload_ok⟩

/-- Witness for C6: 1000 concrete well-formed rows parse back exactly. -/
theorem parse_fund_list_spec_witness :
    allSafe R1000 = true ∧ 1000 ≤ R1000.length ∧
    parse_fund_list (payloadStr R1000) = .ok (encodeRecs R1000) :=
  ⟨by decide, by decide, parse_fund_list_spec.2 R1000 (by decide) (by decide)⟩

/-- A fetchParse success comes from a fetched body whose parse succeeded. -/
theorem fetchParse_ok {fetched : Except String String} {data : List PVal}
    (h : fetchParse fetched = .ok data) :
    ∃ t, fetched = .ok t ∧ parse_fund_list t = .ok data := by
  cases fetched with
  | error e => cases h
  | ok t => exact ⟨t, rfl, h⟩

/-- Claim C9: the snapshot is written only by a successful online load of
at least 1000 rows, and every successful online load overwrites it with
exactly the parsed data — the snapshot reflects the most recent
successful online fetch. -/
theorem snapshot_invariant (fetched : Except String String) (now : String) (fs : FileState) :
    ((load_funds_hardened fetched now fs).2 ≠ fs →
      ∃ data, fetchParse fetched = .ok data ∧ 1000 ≤ data.length ∧
        (load_funds_hardened fetched now fs).2 = ⟨some (.ok (snapshot now data))⟩ ∧
        (load_funds_hardened fetched now fs).1 = .ok (data, "online")) ∧
    (∀ data, fetchParse fetched = .ok data →
      1000 ≤ data.length ∧
      (load_funds_hardened fetched now fs).2 = ⟨some (.ok (snapshot now data))⟩ ∧
      (load_funds_hardened fetched now fs).1 = .ok (data, "online")) := by
  have hmain : ∀ data, fetchParse fetched = .ok data →
      1000 ≤ data.length ∧
      (load_funds_hardened fetched now fs).2 = ⟨some (.ok (snapshot now data))⟩ ∧
      (load_funds_hardened fetched now fs).1 = .ok (data, "online") := by
    intro data h
    obtain ⟨t, _, hp⟩ := fetchParse_ok h
    rw [load_eq_online fetched now fs data h]
    exact ⟨parse_ok_length hp, rfl, rfl⟩
  refine ⟨?_, hmain⟩
  intro hne
  cases hfp : fetchParse fetched with
  | ok data => exact ⟨data, rfl, hmain data hfp⟩
  | error e =>
    exfalso
    rw [load_eq_fallback fetched now fs e hfp] at hne
    cases husable : usableCache fs with
    | some d => rw [husable] at hne; exact hne rfl
    | none => rw [husable] at hne; exact hne rfl

/-- Witness for C9: loading a rendered 1000-row payload overwrites the
empty cache state with the snapshot of exactly the parsed rows. -/
theorem snapshot_invariant_witness :
    fetchParse (.ok (payloadStr R1000)) = .ok (encodeRecs R1000) ∧
    1000 ≤ (encodeRecs R1000).length ∧
    (load_funds_hardened (.ok (payloadStr R1000)) ("ts0") fsB).2 =
      ⟨some (.ok (snapshot ("ts0") (encodeRecs R1000)))⟩ ∧
    (load_funds_hardened (.ok (payloadStr R1000)) ("ts0") fsB).1 =
      .ok (encodeRecs R1000, "online") := by
  have hp : parse_fund_list (payloadStr R1000) = .ok (encodeRecs R1000) :=
    parse_payload_ok R1000 (by decide) (by decide)
  have hf : fetchParse (.ok (payloadStr R1000)) = .ok (encodeRecs R1000) := hp
  have h := (snapshot_invariant (.ok (payloadStr R1000)) ("ts0") fsB).2 _ hf
  exact ⟨hf, h.1, h.2.1, h.2.2⟩

/-- Claim C10: a payload of exactly 1000 rows is accepted online (the
parser rejects only fewer than 1000) and persisted as the snapshot, yet a
later run whose online fetch fails rejects that same snapshot, because
the cache fallback demands strictly more than 1000 rows — the load fails
with the fatal error although the system itself wrote the snapshot. -/
theorem threshold_asymmetry (rs : List (List String)) (hsafe : allSafe rs = true)
    (hlen : rs.length = 1000) (now now2 e : String) (fs0 : FileState) :
    (load_funds_hardened (.ok (payloadStr rs)) now fs0).1 =
      .ok (encodeRecs rs, "online") ∧
    (load_funds_hardened (.ok (payloadStr rs)) now fs0).2 =
      ⟨some (.ok (snapshot now (encodeRecs rs)))⟩ ∧
    load_funds_hardened (.error e) now2
        (load_funds_hardened (.ok (payloadStr rs)) now fs0).2 =
      (.error (fatalMsg e), (load_funds_hardened (.ok (payloadStr rs)) now fs0).2) := by
  have hp : parse_fund_list (payloadStr rs) = .ok (encodeRecs rs) :=
    parse_payload_ok rs hsafe (by omega)
  have hf : fetchParse (.ok (payloadStr rs)) = .ok (encodeRecs rs) := hp
  rw [load_eq_online (.ok (payloadStr rs)) now fs0 _ hf]
  refine ⟨rfl, rfl, ?_⟩
  have hlen2 : (encodeRecs rs).length = 1000 := by
    rw [encodeRecs, List.length_map, hlen]
  have husable : usableCache ⟨some (.ok (snapshot now (encodeRecs rs)))⟩ = none := by
    have hget : pyDictGet (snapshot now (encodeRecs rs)) ("data") (.list []) =
        .ok (.list (encodeRecs rs)) := rfl
    rw [usableCache]
    dsimp only
    rw [hget]
    dsimp only
    rw [if_neg (by rw [hlen2]; omega)]
  rw [load_eq_fallback (.error e) now2 _ e rfl, husable]

/-- Witness for C10: 1000 concrete rows are accepted and persisted, and
the follow-up offline load fails fatally on the very snapshot just
written. -/
theorem threshold_asymmetry_witness :
    allSafe R1000 = true ∧ R1000.length = 1000 ∧
    (load_funds_hardened (.ok (payloadStr R1000)) ("t1") fsB).1 =
      .ok (encodeRecs R1000, "online") ∧
    load_funds_hardened (.error ("blocked")) ("t2")
        (load_funds_hardened (.ok (payloadStr R1000)) ("t1") fsB).2 =
      (.error (fatalMsg ("blocked")),
        (load_funds_hardened (.ok (payloadStr R1000)) ("t1") fsB).2) := by
  have h := threshold_asymmetry R1000 (by decide) (by decide) ("t1") ("t2") ("blocked") fsB
  exact ⟨by decide, by decide, h.1, h.2.2⟩
